import Mathlib

/-!
Verification development for the FARM-stack to-do application.

The backend repository (`backend/server.py` per the README) is not part of
the source tree; its data model and operations are modelled from the spec
(sections 3, 4.3 and 7).  The browser client components
(`frontend/src/App.jsx`, `frontend/src/ListTodoLists.jsx`,
`frontend/src/TodoList.jsx`) are embedded from their source.
-/

namespace FarmStack

/-- Whitespace predicate mirroring the characters JavaScript
`String.prototype.trim` removes (the ASCII ones that can occur here). -/
def jsWhite (c : Char) : Bool :=
  c == ' ' || c == '\t' || c == '\n' || c == '\r'

/-- Embedding of JavaScript `s.trim()`: drop whitespace from both ends. -/
def jsTrim (s : String) : String :=
  ⟨((s.data.dropWhile jsWhite).reverse.dropWhile jsWhite).reverse⟩

theorem dropWhile_idem (p : Char → Bool) (l : List Char) :
    (l.dropWhile p).dropWhile p = l.dropWhile p := by
  induction l with
  | nil => simp
  | cons a l ih =>
    by_cases h : p a <;> simp [List.dropWhile_cons, h, ih]

theorem dropWhile_head_false (p : Char → Bool) (a : Char) (l : List Char)
    (h : (a :: l).dropWhile p = a :: l) : p a = false := by
  by_cases hp : p a
  · exfalso
    rw [List.dropWhile_cons, if_pos hp] at h
    have hlen : (l.dropWhile p).length ≤ l.length :=
      (List.dropWhile_sublist p).length_le
    rw [h] at hlen
    simp at hlen
  · simpa using hp

theorem dropWhile_eq_self_of_prefix (p : Char → Bool) (l m : List Char)
    (hpre : m <+: l) (h : l.dropWhile p = l) : m.dropWhile p = m := by
  cases m with
  | nil => simp
  | cons a m' =>
    obtain ⟨t, ht⟩ := hpre
    have hfa : p a = false := by
      apply dropWhile_head_false p a (m' ++ t)
      have ht' : a :: (m' ++ t) = l := by
        rw [← List.cons_append]
        exact ht
      rw [ht']
      exact h
    rw [List.dropWhile_cons, if_neg (by simp [hfa])]

theorem jsTrim_data_prefix (s : String) :
    (jsTrim s).data <+: s.data.dropWhile jsWhite := by
  unfold jsTrim
  have hsuf : (s.data.dropWhile jsWhite).reverse.dropWhile jsWhite <:+
      (s.data.dropWhile jsWhite).reverse := List.dropWhile_suffix jsWhite
  have := List.reverse_prefix.mpr (by simpa using hsuf)
  simpa using this

/-- JavaScript trimming is idempotent. -/
theorem jsTrim_idem (s : String) : jsTrim (jsTrim s) = jsTrim s := by
  have hfront : (jsTrim s).data.dropWhile jsWhite = (jsTrim s).data := by
    apply dropWhile_eq_self_of_prefix jsWhite (s.data.dropWhile jsWhite)
    · exact jsTrim_data_prefix s
    · exact dropWhile_idem jsWhite s.data
  show (⟨_⟩ : String) = _
  rw [hfront]
  unfold jsTrim
  simp [dropWhile_idem]

/-! ## Repository data model

Modelled from the spec: the backend `server.py` is absent from the source
tree; the entity shapes follow section 3 of the spec.  Opaque identifiers
are modelled as naturals produced by a monotone counter generator
(section 4.1 allows a monotonic counter); instants are naturals
(section 4.2: monotonic-nondecreasing clock). -/

abbrev Instant := Nat

/-- Modelled from the spec: an Item (section 3). -/
structure Item where
  id : Nat
  label : String
  checked : Bool
  createdAt : Instant
  updatedAt : Instant
deriving DecidableEq

/-- Modelled from the spec: a TodoList (section 3). -/
structure TodoList where
  id : Nat
  name : String
  createdAt : Instant
  updatedAt : Instant
  items : List Item
deriving DecidableEq

/-- Modelled from the spec: the two error kinds of section 7. -/
inductive RepoError where
  | validation
  | notFound
deriving DecidableEq

/-- Modelled from the spec: the repository state — the ordered collection of
lists plus the generator counter (`nextId` is the next fresh identifier). -/
structure Repo where
  lists : List TodoList
  nextId : Nat
deriving DecidableEq

/-- Modelled from the spec: a list summary (section 4.3, `listSummaries`). -/
structure Summary where
  id : Nat
  name : String
  createdAt : Instant
  updatedAt : Instant
deriving DecidableEq

def Repo.empty : Repo := { lists := [], nextId := 0 }

/-- Modelled from the spec: `createList` (section 4.3 row 1). -/
def createList (r : Repo) (now : Instant) (name : String) :
    Repo × Except RepoError TodoList :=
  if jsTrim name = "" then (r, .error .validation)
  else
    let l : TodoList :=
      { id := r.nextId, name := jsTrim name, createdAt := now, updatedAt := now, items := [] }
    ({ lists := r.lists ++ [l], nextId := r.nextId + 1 }, .ok l)

/-- Modelled from the spec: `listSummaries` (section 4.3 row 2). -/
def listSummaries (r : Repo) : List Summary :=
  r.lists.map (fun l => ⟨l.id, l.name, l.createdAt, l.updatedAt⟩)

/-- Modelled from the spec: `getList` (section 4.3 row 3). -/
def getList (r : Repo) (id : Nat) : Except RepoError TodoList :=
  match r.lists.find? (fun l => l.id == id) with
  | none => .error .notFound
  | some l => .ok l

/-- Modelled from the spec: `renameList` (section 4.3 row 4); the addressed
list is looked up first, then the trimmed name is validated. -/
def renameList (r : Repo) (now : Instant) (id : Nat) (name : String) :
    Repo × Except RepoError TodoList :=
  match r.lists.find? (fun l => l.id == id) with
  | none => (r, .error .notFound)
  | some l =>
    if jsTrim name = "" then (r, .error .validation)
    else
      let l' := { l with name := jsTrim name, updatedAt := now }
      ({ r with lists := r.lists.map (fun x => if x.id == id then l' else x) }, .ok l')

/-- Modelled from the spec: `deleteList` (section 4.3 row 5), cascading to
the list's items. -/
def deleteList (r : Repo) (id : Nat) : Repo × Except RepoError Unit :=
  if r.lists.any (fun l => l.id == id) then
    ({ r with lists := r.lists.filter (fun l => l.id != id) }, .ok ())
  else (r, .error .notFound)

/-- Modelled from the spec: `addItem` (section 4.3 row 6). -/
def addItem (r : Repo) (now : Instant) (listId : Nat) (label : String) :
    Repo × Except RepoError Item :=
  match r.lists.find? (fun l => l.id == listId) with
  | none => (r, .error .notFound)
  | some _ =>
    if jsTrim label = "" then (r, .error .validation)
    else
      let it : Item :=
        { id := r.nextId, label := jsTrim label, checked := false, createdAt := now, updatedAt := now }
      ({ lists := r.lists.map (fun x =>
            if x.id == listId then { x with items := x.items ++ [it], updatedAt := now }
            else x),
         nextId := r.nextId + 1 }, .ok it)

/-- Modelled from the spec: a partial item patch (section 4.3 row 7). -/
structure ItemPatch where
  label : Option String
  checked : Option Bool
deriving DecidableEq

/-- Modelled from the spec: apply a partial patch to an item, trimming a
supplied label at the repository boundary and stamping `updatedAt`. -/
def applyPatch (now : Instant) (p : ItemPatch) (it : Item) : Item :=
  { it with
    label := match p.label with | some s => jsTrim s | none => it.label
    checked := p.checked.getD it.checked
    updatedAt := now }

/-- Modelled from the spec: `updateItem` (section 4.3 row 7); list and item
are looked up first, then a supplied label is validated. -/
def updateItem (r : Repo) (now : Instant) (listId itemId : Nat) (p : ItemPatch) :
    Repo × Except RepoError Item :=
  match r.lists.find? (fun l => l.id == listId) with
  | none => (r, .error .notFound)
  | some l =>
    match l.items.find? (fun it => it.id == itemId) with
    | none => (r, .error .notFound)
    | some it =>
      if p.label.any (fun s => jsTrim s == "") then (r, .error .validation)
      else
        let it' := applyPatch now p it
        ({ r with lists := r.lists.map (fun x =>
              if x.id == listId then
                { x with items := x.items.map (fun y => if y.id == itemId then it' else y),
                         updatedAt := now }
              else x) }, .ok it')

/-- Modelled from the spec: `deleteItem` (section 4.3 row 8). -/
def deleteItem (r : Repo) (now : Instant) (listId itemId : Nat) :
    Repo × Except RepoError Unit :=
  match r.lists.find? (fun l => l.id == listId) with
  | none => (r, .error .notFound)
  | some l =>
    if l.items.any (fun it => it.id == itemId) then
      ({ r with lists := r.lists.map (fun x =>
            if x.id == listId then
              { x with items := x.items.filter (fun y => y.id != itemId), updatedAt := now }
            else x) }, .ok ())
    else (r, .error .notFound)

/-- Modelled from the spec: the mutating public operations (section 4.3);
`getList` and `listSummaries` are reads and do not change the state. -/
inductive Op where
  | createList (name : String)
  | renameList (id : Nat) (name : String)
  | deleteList (id : Nat)
  | addItem (listId : Nat) (label : String)
  | updateItem (listId itemId : Nat) (p : ItemPatch)
  | deleteItem (listId itemId : Nat)

/-- State after running one mutating operation at instant `now`. -/
def applyOp (r : Repo) (now : Instant) : Op → Repo
  | .createList n => (createList r now n).1
  | .renameList i n => (renameList r now i n).1
  | .deleteList i => (deleteList r i).1
  | .addItem li lb => (addItem r now li lb).1
  | .updateItem li ii p => (updateItem r now li ii p).1
  | .deleteItem li ii => (deleteItem r now li ii).1

/-- Error component of an `Except` outcome. -/
def errOf : Except RepoError α → Option RepoError
  | .error e => some e
  | .ok _ => none

/-- Error reported by one mutating operation at instant `now`, if any. -/
def opError (r : Repo) (now : Instant) : Op → Option RepoError
  | .createList n => errOf (createList r now n).2
  | .renameList i n => errOf (renameList r now i n).2
  | .deleteList i => errOf (deleteList r i).2
  | .addItem li lb => errOf (addItem r now li lb).2
  | .updateItem li ii p => errOf (updateItem r now li ii p).2
  | .deleteItem li ii => errOf (deleteItem r now li ii).2

/-- Multi-step reachability between repository states, from state `r` with
clock watermark `t`, through any sequence of operations run at
nondecreasing instants (the spec clock is monotonic-nondecreasing). -/
inductive Steps : Repo → Instant → Repo → Instant → Prop where
  | refl (r : Repo) (t : Instant) : Steps r t r t
  | step {r t r' t' t''} (o : Op) (h : Steps r t r' t') (hle : t' ≤ t'') :
      Steps r t (applyOp r' t'' o) t''

/-- Reachability from the freshly initialized empty repository. -/
def Reachable (r : Repo) (t : Instant) : Prop := Steps Repo.empty 0 r t

/-- Timestamp sanity for an item at clock watermark `t`. -/
def itemWf (t : Instant) (it : Item) : Prop :=
  it.createdAt ≤ it.updatedAt ∧ it.updatedAt ≤ t

/-- Timestamp sanity for a list and its items at clock watermark `t`. -/
def listWf (t : Instant) (l : TodoList) : Prop :=
  l.createdAt ≤ l.updatedAt ∧ l.updatedAt ≤ t ∧ ∀ it ∈ l.items, itemWf t it

/-- Repository invariant: all timestamps are sane and bounded by the clock
watermark, and every list id is below the generator counter. -/
def repoWf (t : Instant) (r : Repo) : Prop :=
  (∀ l ∈ r.lists, listWf t l) ∧ (∀ l ∈ r.lists, l.id < r.nextId)

theorem itemWf_mono {t t' : Instant} (hle : t ≤ t') {it : Item}
    (h : itemWf t it) : itemWf t' it :=
  ⟨h.1, le_trans h.2 hle⟩

theorem listWf_mono {t t' : Instant} (hle : t ≤ t') {l : TodoList}
    (h : listWf t l) : listWf t' l :=
  ⟨h.1, le_trans h.2.1 hle, fun it hit => itemWf_mono hle (h.2.2 it hit)⟩

theorem listWf_of_mem_map_cond {t t' : Instant} (hle : t ≤ t') {ls : List TodoList}
    (hwf : ∀ l ∈ ls, listWf t l) {c : TodoList → Bool} {f : TodoList → TodoList}
    (hf : ∀ l ∈ ls, c l = true → listWf t' (f l)) :
    ∀ x ∈ ls.map (fun y => if c y then f y else y), listWf t' x := by
  intro x hx
  rw [List.mem_map] at hx
  obtain ⟨y, hy, rfl⟩ := hx
  by_cases hc : c y
  · rw [if_pos hc]
    exact hf y hy hc
  · rw [if_neg hc]
    exact listWf_mono hle (hwf y hy)

theorem idBound_of_mem_map_cond {n n' : Nat} (hn : n ≤ n') {ls : List TodoList}
    (hid : ∀ l ∈ ls, l.id < n) {c : TodoList → Bool} {f : TodoList → TodoList}
    (hf : ∀ x ∈ ls, c x = true → (f x).id < n') :
    ∀ x ∈ ls.map (fun y => if c y then f y else y), x.id < n' := by
  intro x hx
  rw [List.mem_map] at hx
  obtain ⟨y, hy, rfl⟩ := hx
  by_cases hc : c y
  · rw [if_pos hc]
    exact hf y hy hc
  · rw [if_neg hc]
    exact lt_of_lt_of_le (hid y hy) hn

theorem repoWf_mono {t t' : Instant} (hle : t ≤ t') {r : Repo}
    (h : repoWf t r) : repoWf t' r :=
  ⟨fun l hl => listWf_mono hle (h.1 l hl), h.2⟩

/-- Every mutating operation preserves the repository invariant when run at
an instant not before the current watermark. -/
theorem repoWf_applyOp {r : Repo} {t : Instant} (h : repoWf t r) {t' : Instant}
    (hle : t ≤ t') (o : Op) : repoWf t' (applyOp r t' o) := by
  obtain ⟨hwf, hid⟩ := h
  cases o with
  | createList n =>
    show repoWf t' (createList r t' n).1
    rw [createList]
    split
    · exact repoWf_mono hle ⟨hwf, hid⟩
    · constructor
      · intro l hl
        rcases List.mem_append.mp hl with hmem | hmem
        · exact listWf_mono hle (hwf l hmem)
        · rw [List.mem_singleton] at hmem
          subst hmem
          exact ⟨le_refl t', le_refl t', fun it hit => absurd hit (List.not_mem_nil it)⟩
      · intro l hl
        rcases List.mem_append.mp hl with hmem | hmem
        · exact Nat.lt_succ_of_lt (hid l hmem)
        · rw [List.mem_singleton] at hmem
          subst hmem
          exact Nat.lt_succ_self _
  | renameList i n =>
    show repoWf t' (renameList r t' i n).1
    rw [renameList]
    split
    · exact ⟨fun l hl => listWf_mono hle (hwf l hl), hid⟩
    · next l hfind =>
      split
      · exact ⟨fun x hx => listWf_mono hle (hwf x hx), hid⟩
      · have hlmem := List.mem_of_find?_eq_some hfind
        have hly := hwf l hlmem
        constructor
        · apply listWf_of_mem_map_cond hle hwf
          intro y hy _
          exact ⟨le_trans hly.1 (le_trans hly.2.1 hle), le_refl t',
            fun it hit => itemWf_mono hle (hly.2.2 it hit)⟩
        · apply idBound_of_mem_map_cond (le_refl _) hid
          intro x hx _
          exact hid l hlmem
  | deleteList i =>
    show repoWf t' (deleteList r i).1
    rw [deleteList]
    split
    · constructor
      · intro l hl
        exact listWf_mono hle (hwf l (List.mem_of_mem_filter hl))
      · intro l hl
        exact hid l (List.mem_of_mem_filter hl)
    · exact ⟨fun l hl => listWf_mono hle (hwf l hl), hid⟩
  | addItem li lb =>
    show repoWf t' (addItem r t' li lb).1
    rw [addItem]
    split
    · exact ⟨fun l hl => listWf_mono hle (hwf l hl), hid⟩
    · split
      · exact ⟨fun l hl => listWf_mono hle (hwf l hl), hid⟩
      · constructor
        · apply listWf_of_mem_map_cond hle hwf
          intro y hy _
          have hly := hwf y hy
          refine ⟨le_trans hly.1 (le_trans hly.2.1 hle), le_refl t', ?_⟩
          intro it hit
          rcases List.mem_append.mp hit with hmem | hmem
          · exact itemWf_mono hle (hly.2.2 it hmem)
          · rw [List.mem_singleton] at hmem
            subst hmem
            exact ⟨le_refl t', le_refl t'⟩
        · apply idBound_of_mem_map_cond (Nat.le_succ _) hid
          intro x hx hc
          exact Nat.lt_succ_of_lt (hid x hx)
  | updateItem li ii p =>
    show repoWf t' (updateItem r t' li ii p).1
    rw [updateItem]
    split
    · exact ⟨fun l hl => listWf_mono hle (hwf l hl), hid⟩
    · next l hfind =>
      split
      · exact ⟨fun x hx => listWf_mono hle (hwf x hx), hid⟩
      · next it hfit =>
        split
        · exact ⟨fun x hx => listWf_mono hle (hwf x hx), hid⟩
        · have hitw : itemWf t it :=
            (hwf l (List.mem_of_find?_eq_some hfind)).2.2 it (List.mem_of_find?_eq_some hfit)
          constructor
          · apply listWf_of_mem_map_cond hle hwf
            intro y hy _
            have hly := hwf y hy
            refine ⟨le_trans hly.1 (le_trans hly.2.1 hle), le_refl t', ?_⟩
            intro z hz
            rw [List.mem_map] at hz
            obtain ⟨w, hw, rfl⟩ := hz
            by_cases hcw : w.id == ii
            · rw [if_pos hcw]
              exact ⟨le_trans hitw.1 (le_trans hitw.2 hle), le_refl t'⟩
            · rw [if_neg hcw]
              exact itemWf_mono hle (hly.2.2 w hw)
          · apply idBound_of_mem_map_cond (le_refl _) hid
            intro x hx _
            exact hid x hx
  | deleteItem li ii =>
    show repoWf t' (deleteItem r t' li ii).1
    rw [deleteItem]
    split
    · exact ⟨fun l hl => listWf_mono hle (hwf l hl), hid⟩
    · next l hfind =>
      split
      · constructor
        · apply listWf_of_mem_map_cond hle hwf
          intro y hy _
          have hly := hwf y hy
          refine ⟨le_trans hly.1 (le_trans hly.2.1 hle), le_refl t', ?_⟩
          intro z hz
          exact itemWf_mono hle (hly.2.2 z (List.mem_of_mem_filter hz))
        · apply idBound_of_mem_map_cond (le_refl _) hid
          intro x hx _
          exact hid x hx
      · exact ⟨fun x hx => listWf_mono hle (hwf x hx), hid⟩

/-- Along any step sequence the invariant is preserved. -/
theorem repoWf_steps {r : Repo} {t : Instant} {r' : Repo} {t' : Instant}
    (hs : Steps r t r' t') (h : repoWf t r) : repoWf t' r' := by
  induction hs with
  | refl => exact h
  | step o hsteps hle ih => exact repoWf_applyOp ih hle o

/-- Every reachable repository state satisfies the invariant. -/
theorem repoWf_reachable {r : Repo} {t : Instant} (h : Reachable r t) :
    repoWf t r := by
  apply repoWf_steps h
  exact ⟨fun l hl => absurd hl (List.not_mem_nil l), fun l hl => absurd hl (List.not_mem_nil l)⟩

/-! ## Browser client embedding

Embedded from `frontend/src/App.jsx`, `frontend/src/ListTodoLists.jsx` and
`frontend/src/TodoList.jsx`.  URL template literals are embedded as segment
lists: `/api/lists/${listId}` becomes `["api", "lists", listId]`. -/

/-- HTTP methods used by the client (axios calls). -/
inductive Method where
  | get
  | post
  | put
  | patch
  | delete
deriving DecidableEq

/-- JSON values occurring in client request bodies. -/
inductive JVal where
  | str (s : String)
  | bool (b : Bool)
deriving DecidableEq

/-- An HTTP request as issued by the client: method, path segments, and a
JSON object body given as ordered field/value pairs. -/
structure Request where
  method : Method
  path : List String
  body : List (String × JVal)
deriving DecidableEq

/-- The item shape the `ToDoList` component works with (the `ToDoItem`
typedef in `TodoList.jsx`). -/
structure ClientItem where
  id : String
  label : String
  checked : Bool
deriving DecidableEq

/-- Embedded from `TodoList.jsx` `toggleItem`: an `axios.patch` to
`/api/lists/${listId}/items/${item.id}` with body
`\x7b checked_state: !item.checked \x7d`. -/
def toggleItemRequest (listId : String) (item : ClientItem) : Request :=
  { method := .patch
    path := ["api", "lists", listId, "items", item.id]
    body := [("checked_state", .bool (!item.checked))] }

/-- The HTTP-issuing actions of the browser client: the three list-collection
actions of `App.jsx` (`reloadData`, `handleNewTodoList`,
`handleDeleteTodoList`) and the five single-list actions of `TodoList.jsx`
(`loadList`, `addItem`, `toggleItem`, `deleteItem`, `updateItemLabel`).
`ListTodoLists.jsx` issues no requests itself. -/
inductive ClientAction where
  | reloadData
  | newTodoList (newName : String)
  | deleteTodoList (id : String)
  | loadList (listId : String)
  | addItem (listId newLabel : String)
  | toggleItem (listId : String) (item : ClientItem)
  | deleteItem (listId itemId : String)
  | updateItemLabel (listId itemId editedLabel : String)

/-- The request each client action issues, embedded from the axios calls in
`App.jsx` and `TodoList.jsx`. -/
def requestOf : ClientAction → Request
  | .reloadData => { method := .get, path := ["api", "todo-lists"], body := [] }
  | .newTodoList n => { method := .post, path := ["api", "todo-lists"], body := [("name", .str n)] }
  | .deleteTodoList i => { method := .delete, path := ["api", "todo-lists", i], body := [] }
  | .loadList li => { method := .get, path := ["api", "lists", li], body := [] }
  | .addItem li lb =>
    { method := .post, path := ["api", "lists", li, "items"], body := [("label", .str (jsTrim lb))] }
  | .toggleItem li item => toggleItemRequest li item
  | .deleteItem li ii => { method := .delete, path := ["api", "lists", li, "items", ii], body := [] }
  | .updateItemLabel li ii lb =>
    { method := .patch, path := ["api", "lists", li, "items", ii], body := [("label", .str (jsTrim lb))] }

/-- The eight method/path pairs of the external contract (spec section 6). -/
def inContract (rq : Request) : Bool :=
  match rq.method, rq.path with
  | .get, ["api", "lists"] => true
  | .post, ["api", "lists"] => true
  | .get, ["api", "lists", _] => true
  | .put, ["api", "lists", _] => true
  | .delete, ["api", "lists", _] => true
  | .post, ["api", "lists", _, "items"] => true
  | .patch, ["api", "lists", _, "items", _] => true
  | .delete, ["api", "lists", _, "items", _] => true
  | _, _ => false

/-- The three list-collection routes the `App.jsx` component actually uses,
under `/api/todo-lists` instead of `/api/lists`. -/
def todoListsRoute (rq : Request) : Bool :=
  match rq.method, rq.path with
  | .get, ["api", "todo-lists"] => true
  | .post, ["api", "todo-lists"] => true
  | .delete, ["api", "todo-lists", _] => true
  | _, _ => false

/-- Embedded from `ListTodoLists.jsx` `onSubmit`: on form submission the
create-list callback `handleNewToDoList` is invoked with the trimmed input
unless the input trims to empty; the result is the invocation argument, if
any. -/
def onSubmit (newName : String) : Option String :=
  if jsTrim newName = "" then none else some (jsTrim newName)

/-! ## `ToDoList` component state and local-storage mirroring

Embedded from `TodoList.jsx`: the component state variables and the
`window.localStorage.setItem` calls keyed `todo-list-${listId}`.  Server
responses (`data`, `added`, `updatedItem`) are inputs to the embedded
operations. -/

/-- The characters `JSON.stringify` escapes (of those that matter here),
paired with the letter written after the backslash. -/
def jsonEscapePairs : List (Char × Char) :=
  [('"', '"'), ('\\', '\\'), ('\n', 'n'), ('\t', 't'), ('\r', 'r')]

/-- JSON string escaping of one character as `JSON.stringify` performs it. -/
def jsonEscapeChar (c : Char) : List Char :=
  match jsonEscapePairs.find? (fun pr => pr.1 == c) with
  | some pr => ['\\', pr.2]
  | none => [c]

def jsonEscape (s : String) : String :=
  ⟨s.data.foldr (fun c acc => jsonEscapeChar c ++ acc) []⟩

/-- `JSON.stringify` of one item of the `ToDoItem` shape. -/
def serializeItem (it : ClientItem) : String :=
  "\x7b\"id\":\"" ++ jsonEscape it.id ++ "\",\"label\":\"" ++ jsonEscape it.label ++
    "\",\"checked\":" ++ (if it.checked then "true" else "false") ++ "\x7d"

/-- `JSON.stringify` of the items array. -/
def serializeItems (l : List ClientItem) : String :=
  "[" ++ String.intercalate (",") (l.map serializeItem) ++ "]"

/-- The `ToDoList` component state: the React state variables together with
the content of the `todo-list-${listId}` localStorage entry (`none` when the
key is absent). -/
structure ClientListState where
  listName : String
  items : List ClientItem
  newLabel : String
  editingId : Option String
  editedLabel : String
  storage : Option String
deriving DecidableEq

/-- Embedded from `TodoList.jsx` `loadList`: set name and items from the
server response and mirror the items into localStorage. -/
def loadListOp (data_name : String) (data_items : List ClientItem)
    (s : ClientListState) : ClientListState :=
  { s with listName := data_name
           items := data_items
           storage := some (serializeItems data_items) }

/-- Embedded from `TodoList.jsx` `addItem`: no-op when the entered label
trims to empty; otherwise append the server-created item, reset the input,
start editing the new item, and mirror the items. -/
def addItemOp (added : ClientItem) (s : ClientListState) : ClientListState :=
  if jsTrim s.newLabel = "" then s
  else
    let updatedItems := s.items ++ [added]
    { s with items := updatedItems
             newLabel := ""
             editingId := some added.id
             editedLabel := added.label
             storage := some (serializeItems updatedItems) }

/-- Embedded from `TodoList.jsx` `toggleItem`: replace the item matching the
server response id and mirror the items. -/
def toggleItemOp (updatedItem : ClientItem) (s : ClientListState) : ClientListState :=
  let updatedItems := s.items.map (fun it => if it.id == updatedItem.id then updatedItem else it)
  { s with items := updatedItems
           storage := some (serializeItems updatedItems) }

/-- Embedded from `TodoList.jsx` `deleteItem`: drop the item and mirror the
items. -/
def deleteItemOp (itemId : String) (s : ClientListState) : ClientListState :=
  let updatedItems := s.items.filter (fun it => it.id != itemId)
  { s with items := updatedItems
           storage := some (serializeItems updatedItems) }

/-- Embedded from `TodoList.jsx` `updateItemLabel`: no-op when the edited
label trims to empty; otherwise replace the item matching the server
response id, leave editing mode, and mirror the items. -/
def updateItemLabelOp (updatedItem : ClientItem) (s : ClientListState) : ClientListState :=
  if jsTrim s.editedLabel = "" then s
  else
    let updatedItems := s.items.map (fun it => if it.id == updatedItem.id then updatedItem else it)
    { s with items := updatedItems
             editingId := none
             editedLabel := ""
             storage := some (serializeItems updatedItems) }

/-- The localStorage entry holds exactly the JSON serialization of the
component's current items array. -/
def cacheConsistent (s : ClientListState) : Prop :=
  s.storage = some (serializeItems s.items)

/-! ## Claim theorems -/

/-- C1: for every name that trims non-empty, `createList` succeeds and
produces a list with the trimmed name, empty items and
`createdAt = updatedAt = now`, and a subsequent `getList` with the returned
id returns that list; for every name that trims to empty, `createList`
fails with ValidationError and leaves the repository unchanged. -/
theorem c1_createList_roundtrip (r : Repo) (t : Instant) (hr : Reachable r t)
    (now : Instant) (name : String) :
    (jsTrim name = "" → createList r now name = (r, .error .validation)) ∧
    (jsTrim name ≠ "" → ∃ l : TodoList,
      (createList r now name).2 = .ok l ∧
      l.name = jsTrim name ∧ l.items = [] ∧ l.createdAt = now ∧ l.updatedAt = now ∧
      l.createdAt = l.updatedAt ∧
      getList (createList r now name).1 l.id = .ok l) := by
  constructor
  · intro hv
    rw [createList, if_pos hv]
  · intro hv
    refine ⟨⟨r.nextId, jsTrim name, now, now, []⟩, ?_, rfl, rfl, rfl, rfl, rfl, ?_⟩
    · rw [createList, if_neg hv]
    · have hids := (repoWf_reachable hr).2
      have hnone : r.lists.find? (fun x => x.id == r.nextId) = none := by
        rw [List.find?_eq_none]
        intro x hx
        simp only [beq_iff_eq]
        exact Nat.ne_of_lt (hids x hx)
      have hone : ([(⟨r.nextId, jsTrim name, now, now, []⟩ : TodoList)].find?
          (fun x => x.id == r.nextId)) = some ⟨r.nextId, jsTrim name, now, now, []⟩ :=
        List.find?_cons_of_pos _ (by simp)
      have hproj : (⟨r.nextId, jsTrim name, now, now, []⟩ : TodoList).id = r.nextId := rfl
      rw [createList, if_neg hv, hproj, getList]
      show (match (r.lists ++ [(⟨r.nextId, jsTrim name, now, now, []⟩ : TodoList)]).find?
          (fun x => x.id == r.nextId) with
        | none => Except.error RepoError.notFound
        | some l => Except.ok l) = _
      rw [List.find?_append, hnone, Option.none_or, hone]

/-- C1 witness: creating a list named Groceries in the empty repository at
instant 0 succeeds with the stated shape, and getList returns it. -/
theorem c1_createList_roundtrip_witness :
    ∃ l : TodoList,
      (createList Repo.empty 0 ("Groceries")).2 = .ok l ∧
      l.name = jsTrim ("Groceries") ∧ l.items = [] ∧ l.createdAt = 0 ∧ l.updatedAt = 0 ∧
      l.createdAt = l.updatedAt ∧
      getList (createList Repo.empty 0 ("Groceries")).1 l.id = .ok l :=
  (c1_createList_roundtrip Repo.empty 0 (Steps.refl _ _) 0 ("Groceries")).2 (by decide)

/-- C2: in every reachable repository state, every list and every item
satisfies `createdAt ≤ updatedAt`, and every mutating operation run at any
later instant preserves this (reads do not change the state). -/
theorem c2_createdAt_le_updatedAt (r : Repo) (t : Instant) (hr : Reachable r t) :
    (∀ l ∈ r.lists, l.createdAt ≤ l.updatedAt) ∧
    (∀ l ∈ r.lists, ∀ it ∈ l.items, it.createdAt ≤ it.updatedAt) ∧
    (∀ t' : Instant, t ≤ t' → ∀ o : Op,
      (∀ l ∈ (applyOp r t' o).lists, l.createdAt ≤ l.updatedAt) ∧
      (∀ l ∈ (applyOp r t' o).lists, ∀ it ∈ l.items, it.createdAt ≤ it.updatedAt)) := by
  have h := repoWf_reachable hr
  refine ⟨fun l hl => (h.1 l hl).1, fun l hl it hit => ((h.1 l hl).2.2 it hit).1, ?_⟩
  intro t' hle o
  have h' := repoWf_applyOp h hle o
  exact ⟨fun l hl => (h'.1 l hl).1, fun l hl it hit => ((h'.1 l hl).2.2 it hit).1⟩

/-- C2 witness: in the reachable state obtained by creating a list and
adding an item, the item of the single list satisfies
`createdAt ≤ updatedAt`. -/
theorem c2_createdAt_le_updatedAt_witness :
    (⟨1, jsTrim ("milk"), false, 0, 0⟩ : Item).createdAt ≤
      (⟨1, jsTrim ("milk"), false, 0, 0⟩ : Item).updatedAt :=
  (c2_createdAt_le_updatedAt
      (applyOp (applyOp Repo.empty 0 (Op.createList ("todo"))) 0 (Op.addItem 0 ("milk"))) 0
      (Steps.step (Op.addItem 0 ("milk"))
        (Steps.step (Op.createList ("todo")) (Steps.refl _ _) (le_refl 0)) (le_refl 0))).2.1
    ⟨0, jsTrim ("todo"), 0, 0, [⟨1, jsTrim ("milk"), false, 0, 0⟩]⟩ (by decide)
    ⟨1, jsTrim ("milk"), false, 0, 0⟩ (by decide)

/-- C3: every operation that fails (ValidationError or NotFoundError)
leaves the repository unchanged; in particular `deleteItem` addressed to a
resolvable list but an item id not present in it returns NotFoundError and
leaves the state — hence that list's item sequence and `updatedAt` —
exactly as they were. -/
theorem c3_failure_leaves_state (r : Repo) (now : Instant) :
    (∀ o : Op, (opError r now o).isSome = true → applyOp r now o = r) ∧
    (∀ listId itemId : Nat, ∀ l : TodoList,
      r.lists.find? (fun x => x.id == listId) = some l →
      l.items.any (fun y => y.id == itemId) = false →
      deleteItem r now listId itemId = (r, .error .notFound)) := by
  constructor
  · intro o
    cases o with
    | createList n =>
      simp only [opError, applyOp, createList]
      split
      · intro _
        rfl
      · simp [errOf]
    | renameList i n =>
      simp only [opError, applyOp, renameList]
      split
      · intro _
        rfl
      · split
        · intro _
          rfl
        · simp [errOf]
    | deleteList i =>
      simp only [opError, applyOp, deleteList]
      split
      · simp [errOf]
      · intro _
        rfl
    | addItem li lb =>
      simp only [opError, applyOp, addItem]
      split
      · intro _
        rfl
      · split
        · intro _
          rfl
        · simp [errOf]
    | updateItem li ii p =>
      simp only [opError, applyOp, updateItem]
      split
      · intro _
        rfl
      · split
        · intro _
          rfl
        · split
          · intro _
            rfl
          · simp [errOf]
    | deleteItem li ii =>
      simp only [opError, applyOp, deleteItem]
      split
      · intro _
        rfl
      · split
        · simp [errOf]
        · intro _
          rfl
  · intro listId itemId l hfind hany
    rw [deleteItem, hfind]
    simp [hany]

/-- C3 witness: deleting a nonexistent list from the empty repository fails
and leaves it unchanged; deleting a nonexistent item from a concrete
one-list repository returns NotFoundError without mutating. -/
theorem c3_failure_leaves_state_witness :
    applyOp Repo.empty 0 (Op.deleteList 5) = Repo.empty ∧
    deleteItem ⟨[⟨0, "g", 0, 0, [⟨1, "milk", false, 0, 0⟩]⟩], 2⟩ 7 0 9 =
      (⟨[⟨0, "g", 0, 0, [⟨1, "milk", false, 0, 0⟩]⟩], 2⟩, .error .notFound) :=
  ⟨(c3_failure_leaves_state Repo.empty 0).1 (Op.deleteList 5) (by decide),
   (c3_failure_leaves_state ⟨[⟨0, "g", 0, 0, [⟨1, "milk", false, 0, 0⟩]⟩], 2⟩ 7).2 0 9
     ⟨0, "g", 0, 0, [⟨1, "milk", false, 0, 0⟩]⟩ (by decide) (by decide)⟩

/-- A predicate on repository states preserved by every operation is
preserved along any step sequence. -/
theorem steps_preserve (P : Repo → Prop)
    (hP : ∀ (r'' : Repo) (t'' : Instant) (o : Op), P r'' → P (applyOp r'' t'' o))
    {a : Repo} {ta : Instant} {b : Repo} {tb : Instant}
    (hs : Steps a ta b tb) (h : P a) : P b := by
  induction hs with
  | refl => exact h
  | step o hsteps hle ih => exact hP _ _ o ih

/-- Once an id is absent from the lists and below the generator counter, it
stays so under every operation. -/
theorem gone_id_applyOp (id : Nat) (r : Repo) (t : Instant) (o : Op)
    (h1 : ∀ l ∈ r.lists, l.id ≠ id) (h2 : id < r.nextId) :
    (∀ l ∈ (applyOp r t o).lists, l.id ≠ id) ∧ id < (applyOp r t o).nextId := by
  cases o with
  | createList n =>
    show (∀ l ∈ (createList r t n).1.lists, l.id ≠ id) ∧ id < (createList r t n).1.nextId
    rw [createList]
    split
    · exact ⟨h1, h2⟩
    · constructor
      · intro l hl
        rcases List.mem_append.mp hl with hm | hm
        · exact h1 l hm
        · rw [List.mem_singleton] at hm
          subst hm
          exact Ne.symm (Nat.ne_of_lt h2)
      · exact Nat.lt_succ_of_lt h2
  | renameList i n =>
    show (∀ l ∈ (renameList r t i n).1.lists, l.id ≠ id) ∧ id < (renameList r t i n).1.nextId
    rw [renameList]
    split
    · exact ⟨h1, h2⟩
    · next l hfind =>
      split
      · exact ⟨h1, h2⟩
      · constructor
        · intro x hx
          rw [List.mem_map] at hx
          obtain ⟨y, hy, rfl⟩ := hx
          by_cases hc : y.id == i
          · rw [if_pos hc]
            exact h1 l (List.mem_of_find?_eq_some hfind)
          · rw [if_neg hc]
            exact h1 y hy
        · exact h2
  | deleteList i =>
    show (∀ l ∈ (deleteList r i).1.lists, l.id ≠ id) ∧ id < (deleteList r i).1.nextId
    rw [deleteList]
    split
    · exact ⟨fun l hl => h1 l (List.mem_of_mem_filter hl), h2⟩
    · exact ⟨h1, h2⟩
  | addItem li lb =>
    show (∀ l ∈ (addItem r t li lb).1.lists, l.id ≠ id) ∧ id < (addItem r t li lb).1.nextId
    rw [addItem]
    split
    · exact ⟨h1, h2⟩
    · split
      · exact ⟨h1, h2⟩
      · constructor
        · intro x hx
          rw [List.mem_map] at hx
          obtain ⟨y, hy, rfl⟩ := hx
          by_cases hc : y.id == li
          · rw [if_pos hc]
            exact h1 y hy
          · rw [if_neg hc]
            exact h1 y hy
        · exact Nat.lt_succ_of_lt h2
  | updateItem li ii p =>
    show (∀ l ∈ (updateItem r t li ii p).1.lists, l.id ≠ id) ∧
      id < (updateItem r t li ii p).1.nextId
    rw [updateItem]
    split
    · exact ⟨h1, h2⟩
    · split
      · exact ⟨h1, h2⟩
      · split
        · exact ⟨h1, h2⟩
        · constructor
          · intro x hx
            rw [List.mem_map] at hx
            obtain ⟨y, hy, rfl⟩ := hx
            by_cases hc : y.id == li
            · rw [if_pos hc]
              exact h1 y hy
            · rw [if_neg hc]
              exact h1 y hy
          · exact h2
  | deleteItem li ii =>
    show (∀ l ∈ (deleteItem r t li ii).1.lists, l.id ≠ id) ∧
      id < (deleteItem r t li ii).1.nextId
    rw [deleteItem]
    split
    · exact ⟨h1, h2⟩
    · split
      · constructor
        · intro x hx
          rw [List.mem_map] at hx
          obtain ⟨y, hy, rfl⟩ := hx
          by_cases hc : y.id == li
          · rw [if_pos hc]
            exact h1 y hy
          · rw [if_neg hc]
            exact h1 y hy
        · exact h2
      · exact ⟨h1, h2⟩

/-- C4: after a successful `deleteList id` from a reachable state, in every
subsequently reachable state `getList id` and every item operation
addressed to `id` fail with NotFoundError, `id` never appears in
`listSummaries`, and no later `createList` ever returns the id again. -/
theorem c4_deleted_id_gone (r : Repo) (t : Instant) (hr : Reachable r t) (id : Nat)
    (hdel : (deleteList r id).2 = .ok ())
    (r' : Repo) (t' : Instant) (hs : Steps (deleteList r id).1 t r' t') :
    getList r' id = .error .notFound ∧
    (∀ (now : Instant) (lbl : String), addItem r' now id lbl = (r', .error .notFound)) ∧
    (∀ (now : Instant) (iid : Nat) (p : ItemPatch),
      updateItem r' now id iid p = (r', .error .notFound)) ∧
    (∀ (now : Instant) (iid : Nat), deleteItem r' now id iid = (r', .error .notFound)) ∧
    (∀ s ∈ listSummaries r', s.id ≠ id) ∧
    (∀ (now : Instant) (n : String) (l : TodoList),
      (createList r' now n).2 = .ok l → l.id ≠ id) := by
  have hany : r.lists.any (fun l => l.id == id) = true := by
    by_cases h : r.lists.any (fun l => l.id == id)
    · exact h
    · exfalso
      rw [deleteList, if_neg (by simp [h])] at hdel
      cases hdel
  have hlt : id < r.nextId := by
    obtain ⟨l, hl, hlid⟩ := List.any_eq_true.mp hany
    have := (repoWf_reachable hr).2 l hl
    rw [beq_iff_eq] at hlid
    rw [← hlid]
    exact this
  have hpost1 : ∀ l ∈ (deleteList r id).1.lists, l.id ≠ id := by
    rw [deleteList, if_pos (by simpa using hany)]
    intro l hl
    have := List.of_mem_filter hl
    simpa using this
  have hpost2 : id < (deleteList r id).1.nextId := by
    rw [deleteList, if_pos (by simpa using hany)]
    exact hlt
  have hP : (∀ l ∈ r'.lists, l.id ≠ id) ∧ id < r'.nextId := by
    apply steps_preserve (fun rr => (∀ l ∈ rr.lists, l.id ≠ id) ∧ id < rr.nextId)
      (fun rr tt o h => gone_id_applyOp id rr tt o h.1 h.2) hs ⟨hpost1, hpost2⟩
  have hfind : r'.lists.find? (fun l => l.id == id) = none := by
    rw [List.find?_eq_none]
    intro x hx
    simp only [beq_iff_eq]
    exact hP.1 x hx
  refine ⟨?_, ?_, ?_, ?_, ?_, ?_⟩
  · rw [getList, hfind]
  · intro now lbl
    rw [addItem, hfind]
  · intro now iid p
    rw [updateItem, hfind]
  · intro now iid
    rw [deleteItem, hfind]
  · intro s hsm
    rw [listSummaries, List.mem_map] at hsm
    obtain ⟨l, hl, rfl⟩ := hsm
    exact hP.1 l hl
  · intro now n l hok
    rw [createList] at hok
    by_cases hv : jsTrim n = ""
    · rw [if_pos hv] at hok
      cases hok
    · rw [if_neg hv] at hok
      have : (⟨r'.nextId, jsTrim n, now, now, []⟩ : TodoList) = l := by
        exact Except.ok.inj hok
      rw [← this]
      exact Ne.symm (Nat.ne_of_lt hP.2)

/-- C4 witness: create a list in the empty repository, delete it; in the
resulting state getList with the deleted id fails with NotFoundError. -/
theorem c4_deleted_id_gone_witness :
    getList (deleteList (applyOp Repo.empty 0 (Op.createList ("a"))) 0).1 0 =
      .error .notFound :=
  (c4_deleted_id_gone (applyOp Repo.empty 0 (Op.createList ("a"))) 0
      (Steps.step (Op.createList ("a")) (Steps.refl _ _) (le_refl 0)) 0
      rfl _ 0 (Steps.refl _ _)).1

/-- `find?` by key commutes with mapping a key-preserving function. -/
theorem find_by_key_map {α : Type} {f : α → α} (key : α → Nat)
    (hf : ∀ x, key (f x) = key x) (ls : List α) (k : Nat) :
    (ls.map f).find? (fun x => key x == k) = (ls.find? (fun x => key x == k)).map f := by
  rw [List.find?_map]
  have h : ((fun x => key x == k) ∘ f) = (fun x => key x == k) :=
    funext fun x => by simp [Function.comp, hf]
  rw [h]

/-- The per-item replacement `updateItem` performs inside the addressed
list. -/
def patchItemFn (now : Instant) (p : ItemPatch) (itemId : Nat) (it : Item) :
    Item → Item := fun y =>
  if y.id == itemId then applyPatch now p it else y

/-- The per-list update `updateItem` performs across the repository. -/
def patchListFn (now : Instant) (p : ItemPatch) (listId itemId : Nat) (it : Item) :
    TodoList → TodoList := fun x =>
  if x.id == listId then
    { x with items := x.items.map (patchItemFn now p itemId it),
             updatedAt := now }
  else x

/-- C5: a successful `updateItem` changes only the supplied patch fields on
the addressed item, stamps both the item's and the parent list's
`updatedAt` with `now`, and leaves every other item and every other list
unchanged. -/
theorem c5_updateItem_frame (r : Repo) (now : Instant) (listId itemId : Nat)
    (p : ItemPatch) (l : TodoList)
    (hfind : r.lists.find? (fun x => x.id == listId) = some l)
    (it : Item) (hfit : l.items.find? (fun y => y.id == itemId) = some it)
    (hval : p.label.any (fun s => jsTrim s == "") = false) :
    ∃ it' : Item, (updateItem r now listId itemId p).2 = .ok it' ∧
      it'.id = it.id ∧ it'.createdAt = it.createdAt ∧ it'.updatedAt = now ∧
      (∀ s, p.label = some s → it'.label = jsTrim s) ∧
      (p.label = none → it'.label = it.label) ∧
      (∀ b, p.checked = some b → it'.checked = b) ∧
      (p.checked = none → it'.checked = it.checked) ∧
      (updateItem r now listId itemId p).1.nextId = r.nextId ∧
      (∀ x ∈ r.lists, x.id ≠ listId → x ∈ (updateItem r now listId itemId p).1.lists) ∧
      ∃ lu ∈ (updateItem r now listId itemId p).1.lists,
        lu.id = l.id ∧ lu.name = l.name ∧ lu.createdAt = l.createdAt ∧
        lu.updatedAt = now ∧
        lu.items = l.items.map (fun y => if y.id == itemId then it' else y) ∧
        it' ∈ lu.items ∧
        (∀ y ∈ l.items, y.id ≠ itemId → y ∈ lu.items) := by
  have hreduce : updateItem r now listId itemId p =
      ({ r with lists := r.lists.map (patchListFn now p listId itemId it) },
        .ok (applyPatch now p it)) := by
    rw [updateItem, hfind]
    dsimp only
    rw [hfit]
    dsimp only
    rw [if_neg (by simp [hval])]
    rfl
  refine ⟨applyPatch now p it, ?_, rfl, rfl, rfl, ?_, ?_, ?_, ?_, ?_, ?_, ?_⟩
  · rw [hreduce]
  · intro s hs
    simp [applyPatch, hs]
  · intro hnone
    simp [applyPatch, hnone]
  · intro b hb
    simp [applyPatch, hb]
  · intro hnone
    simp [applyPatch, hnone]
  · rw [hreduce]
  · intro x hx hne
    rw [hreduce]
    show x ∈ r.lists.map (patchListFn now p listId itemId it)
    have hfix : patchListFn now p listId itemId it x = x := by
      rw [patchListFn]
      exact if_neg (by simp [hne])
    rw [← hfix]
    exact List.mem_map_of_mem _ hx
  · have hlid := List.find?_some hfind
    have hitid := List.find?_some hfit
    refine ⟨patchListFn now p listId itemId it l, ?_, ?_, ?_, ?_, ?_, ?_, ?_, ?_⟩
    · rw [hreduce]
      exact List.mem_map_of_mem _ (List.mem_of_find?_eq_some hfind)
    · rw [patchListFn, if_pos hlid]
    · rw [patchListFn, if_pos hlid]
    · rw [patchListFn, if_pos hlid]
    · rw [patchListFn, if_pos hlid]
    · rw [patchListFn, if_pos hlid]
      rfl
    · rw [patchListFn, if_pos hlid]
      show applyPatch now p it ∈ l.items.map (patchItemFn now p itemId it)
      have hfix : patchItemFn now p itemId it it = applyPatch now p it := by
        rw [patchItemFn]
        exact if_pos hitid
      rw [← hfix]
      exact List.mem_map_of_mem _ (List.mem_of_find?_eq_some hfit)
    · intro y hy hne
      rw [patchListFn, if_pos hlid]
      show y ∈ l.items.map (patchItemFn now p itemId it)
      have hfix : patchItemFn now p itemId it y = y := by
        rw [patchItemFn]
        exact if_neg (by simp [hne])
      rw [← hfix]
      exact List.mem_map_of_mem _ hy

/-- C5 witness: patching only `checked` on a concrete one-item repository
satisfies all the frame conditions. -/
theorem c5_updateItem_frame_witness :
    ∃ it' : Item,
      (updateItem ⟨[⟨0, "g", 0, 0, [⟨1, "milk", false, 0, 0⟩]⟩], 2⟩ 3 0 1
        ⟨none, some true⟩).2 = .ok it' ∧
      it'.id = (⟨1, "milk", false, 0, 0⟩ : Item).id ∧
      it'.createdAt = (⟨1, "milk", false, 0, 0⟩ : Item).createdAt ∧
      it'.updatedAt = 3 ∧
      (∀ s, (⟨none, some true⟩ : ItemPatch).label = some s → it'.label = jsTrim s) ∧
      ((⟨none, some true⟩ : ItemPatch).label = none →
        it'.label = (⟨1, "milk", false, 0, 0⟩ : Item).label) ∧
      (∀ b, (⟨none, some true⟩ : ItemPatch).checked = some b → it'.checked = b) ∧
      ((⟨none, some true⟩ : ItemPatch).checked = none →
        it'.checked = (⟨1, "milk", false, 0, 0⟩ : Item).checked) ∧
      (updateItem ⟨[⟨0, "g", 0, 0, [⟨1, "milk", false, 0, 0⟩]⟩], 2⟩ 3 0 1
        ⟨none, some true⟩).1.nextId =
        (⟨[⟨0, "g", 0, 0, [⟨1, "milk", false, 0, 0⟩]⟩], 2⟩ : Repo).nextId ∧
      (∀ x ∈ (⟨[⟨0, "g", 0, 0, [⟨1, "milk", false, 0, 0⟩]⟩], 2⟩ : Repo).lists,
        x.id ≠ 0 →
        x ∈ (updateItem ⟨[⟨0, "g", 0, 0, [⟨1, "milk", false, 0, 0⟩]⟩], 2⟩ 3 0 1
          ⟨none, some true⟩).1.lists) ∧
      ∃ lu ∈ (updateItem ⟨[⟨0, "g", 0, 0, [⟨1, "milk", false, 0, 0⟩]⟩], 2⟩ 3 0 1
          ⟨none, some true⟩).1.lists,
        lu.id = (⟨0, "g", 0, 0, [⟨1, "milk", false, 0, 0⟩]⟩ : TodoList).id ∧
        lu.name = (⟨0, "g", 0, 0, [⟨1, "milk", false, 0, 0⟩]⟩ : TodoList).name ∧
        lu.createdAt = (⟨0, "g", 0, 0, [⟨1, "milk", false, 0, 0⟩]⟩ : TodoList).createdAt ∧
        lu.updatedAt = 3 ∧
        lu.items = (⟨0, "g", 0, 0, [⟨1, "milk", false, 0, 0⟩]⟩ : TodoList).items.map
          (fun y => if y.id == 1 then it' else y) ∧
        it' ∈ lu.items ∧
        (∀ y ∈ (⟨0, "g", 0, 0, [⟨1, "milk", false, 0, 0⟩]⟩ : TodoList).items,
          y.id ≠ 1 → y ∈ lu.items) :=
  c5_updateItem_frame ⟨[⟨0, "g", 0, 0, [⟨1, "milk", false, 0, 0⟩]⟩], 2⟩ 3 0 1
    ⟨none, some true⟩ ⟨0, "g", 0, 0, [⟨1, "milk", false, 0, 0⟩]⟩ (by decide)
    ⟨1, "milk", false, 0, 0⟩ (by decide) (by decide)

/-- C8 counterexample: the spec clock is only monotonic-nondecreasing, and
with the clock not advancing (`now` equal to the item's `updatedAt`) a
toggle via `updateItem` succeeds but does not strictly increase
`updatedAt`: the claim's unconditional strict increase fails. -/
theorem c8_counterexample :
    (updateItem ⟨[⟨0, "g", 0, 0, [⟨1, "milk", false, 0, 0⟩]⟩], 2⟩ 0 0 1
      ⟨none, some true⟩).2 = .ok ⟨1, "milk", true, 0, 0⟩ ∧
    (⟨1, "milk", false, 0, 0⟩ : Item).checked = false ∧
    (⟨1, "milk", true, 0, 0⟩ : Item).checked = true ∧
    ¬ (⟨1, "milk", false, 0, 0⟩ : Item).updatedAt <
      (⟨1, "milk", true, 0, 0⟩ : Item).updatedAt := by
  refine ⟨?_, rfl, rfl, by decide⟩
  rfl

/-- C8 (amended): toggling an unchecked item's `checked` to true and back to
false via two `updateItem` calls returns `checked` to its original false,
and `updatedAt` strictly increases at each step whenever the clock strictly
advances before each call (with a merely nondecreasing clock it is
nondecreasing). -/
theorem c8_double_toggle (r : Repo) (listId itemId : Nat) (l : TodoList) (it : Item)
    (hfind : r.lists.find? (fun x => x.id == listId) = some l)
    (hfit : l.items.find? (fun y => y.id == itemId) = some it)
    (hch : it.checked = false)
    (now1 now2 : Instant) (h1 : it.updatedAt < now1) (h2 : now1 < now2) :
    ∃ it1 it2 : Item,
      (updateItem r now1 listId itemId ⟨none, some true⟩).2 = .ok it1 ∧
      (updateItem (updateItem r now1 listId itemId ⟨none, some true⟩).1 now2 listId itemId
        ⟨none, some false⟩).2 = .ok it2 ∧
      it1.checked = true ∧ it2.checked = false ∧ it2.checked = it.checked ∧
      it.updatedAt < it1.updatedAt ∧ it1.updatedAt < it2.updatedAt := by
  have hitid := List.find?_some hfit
  have hred1 : updateItem r now1 listId itemId ⟨none, some true⟩ =
      ({ r with lists :=
          r.lists.map (patchListFn now1 ⟨none, some true⟩ listId itemId it) },
        .ok (applyPatch now1 ⟨none, some true⟩ it)) := by
    rw [updateItem, hfind]
    dsimp only
    rw [hfit]
    dsimp only
    rw [if_neg (by simp)]
    rfl
  have hpresL : ∀ x : TodoList,
      (patchListFn now1 ⟨none, some true⟩ listId itemId it x).id = x.id := by
    intro x
    rw [patchListFn]
    by_cases hc : x.id == listId
    · rw [if_pos hc]
    · rw [if_neg hc]
  have hpresI : ∀ y : Item,
      (patchItemFn now1 ⟨none, some true⟩ itemId it y).id = y.id := by
    intro y
    rw [patchItemFn]
    by_cases hc : y.id == itemId
    · rw [if_pos hc]
      show it.id = y.id
      rw [beq_iff_eq] at hitid hc
      rw [hitid, hc]
    · rw [if_neg hc]
  have hfind1 :
      (r.lists.map (patchListFn now1 ⟨none, some true⟩ listId itemId it)).find?
        (fun x => x.id == listId) =
      some (patchListFn now1 ⟨none, some true⟩ listId itemId it l) := by
    rw [find_by_key_map (fun x => x.id) hpresL r.lists listId, hfind]
    rfl
  have hlu : patchListFn now1 ⟨none, some true⟩ listId itemId it l =
      { l with items := l.items.map (patchItemFn now1 ⟨none, some true⟩ itemId it),
               updatedAt := now1 } := by
    rw [patchListFn, if_pos (List.find?_some hfind)]
  have hfit1 :
      (l.items.map (patchItemFn now1 ⟨none, some true⟩ itemId it)).find?
        (fun y => y.id == itemId) =
      some (applyPatch now1 ⟨none, some true⟩ it) := by
    rw [find_by_key_map (fun y => y.id) hpresI l.items itemId, hfit]
    show some (patchItemFn now1 ⟨none, some true⟩ itemId it it) = _
    rw [patchItemFn, if_pos hitid]
  refine ⟨applyPatch now1 ⟨none, some true⟩ it,
    applyPatch now2 ⟨none, some false⟩ (applyPatch now1 ⟨none, some true⟩ it),
    ?_, ?_, ?_, ?_, ?_, ?_, ?_⟩
  · rw [hred1]
  · rw [hred1]
    show (updateItem
        { r with lists :=
            r.lists.map (patchListFn now1 ⟨none, some true⟩ listId itemId it) }
        now2 listId itemId ⟨none, some false⟩).2 = _
    rw [updateItem]
    dsimp only
    rw [hfind1]
    dsimp only
    rw [hlu]
    dsimp only
    rw [hfit1]
    dsimp only
    rw [if_neg (by simp)]
  · rfl
  · rfl
  · rw [hch]
    rfl
  · exact h1
  · exact h2

/-- C8 witness for the amended theorem: a concrete double toggle at
instants 1 and 2 on an item last updated at 0. -/
theorem c8_double_toggle_witness :
    ∃ it1 it2 : Item,
      (updateItem ⟨[⟨0, "g", 0, 0, [⟨1, "milk", false, 0, 0⟩]⟩], 2⟩ 1 0 1
        ⟨none, some true⟩).2 = .ok it1 ∧
      (updateItem (updateItem ⟨[⟨0, "g", 0, 0, [⟨1, "milk", false, 0, 0⟩]⟩], 2⟩ 1 0 1
        ⟨none, some true⟩).1 2 0 1 ⟨none, some false⟩).2 = .ok it2 ∧
      it1.checked = true ∧ it2.checked = false ∧
      it2.checked = (⟨1, "milk", false, 0, 0⟩ : Item).checked ∧
      (⟨1, "milk", false, 0, 0⟩ : Item).updatedAt < it1.updatedAt ∧
      it1.updatedAt < it2.updatedAt :=
  c8_double_toggle ⟨[⟨0, "g", 0, 0, [⟨1, "milk", false, 0, 0⟩]⟩], 2⟩ 0 1
    ⟨0, "g", 0, 0, [⟨1, "milk", false, 0, 0⟩]⟩ ⟨1, "milk", false, 0, 0⟩
    (by decide) (by decide) rfl 1 2 (by decide) (by decide)

/-- C6 counterexample: the toggle request of `TodoList.jsx` names its body
field `checked_state`, not `checked`, so the claim that every toggle body
sets a field named `checked` fails on the concrete toggle of an unchecked
item. -/
theorem c6_counterexample :
    toggleItemRequest ("L1") ⟨"I1", "Milk", false⟩ =
      ⟨Method.patch, ["api", "lists", "L1", "items", "I1"],
        [("checked_state", JVal.bool true)]⟩ ∧
    ("checked_state" : String) ≠ "checked" ∧
    ((toggleItemRequest ("L1") ⟨"I1", "Milk", false⟩).body.all
      (fun fv => fv.1 != "checked")) = true := by
  decide

/-- C6 (amended): every toggle the browser client issues is an `updateItem`
call — a PATCH to /api/lists/{id}/items/{item_id} whose body consists of
the single field named `checked_state` set to the negation of the item's
current checked value; no separate toggle endpoint or other body shape is
used. -/
theorem c6_toggle_request_shape (listId : String) (item : ClientItem) :
    requestOf (ClientAction.toggleItem listId item) =
      ⟨Method.patch, ["api", "lists", listId, "items", item.id],
        [("checked_state", JVal.bool (!item.checked))]⟩ := rfl

/-- C6 witness: the amended shape at a concrete item. -/
theorem c6_toggle_request_shape_witness :
    requestOf (ClientAction.toggleItem ("L1") ⟨"I1", "Milk", false⟩) =
      ⟨Method.patch, ["api", "lists", "L1", "items", "I1"],
        [("checked_state", JVal.bool (!false))]⟩ :=
  c6_toggle_request_shape ("L1") ⟨"I1", "Milk", false⟩

/-- C7 counterexample: the list-collection reload request of `App.jsx` is a
GET to /api/todo-lists, which is not among the eight method/path pairs of
the external contract. -/
theorem c7_counterexample :
    inContract (requestOf ClientAction.reloadData) = false ∧
    (requestOf ClientAction.reloadData).method = Method.get ∧
    (requestOf ClientAction.reloadData).path = ["api", "todo-lists"] := by
  decide

/-- C7 (amended): every request the browser client issues targets either
one of the eight contract pairs under /api/lists or one of the three
list-collection routes under /api/todo-lists that `App.jsx` actually uses;
the list-collection requests go to /api/todo-lists, not /api/lists. -/
theorem c7_client_routes :
    (∀ a : ClientAction,
      (inContract (requestOf a) || todoListsRoute (requestOf a)) = true) ∧
    (requestOf ClientAction.reloadData).path = ["api", "todo-lists"] ∧
    (∀ n : String, (requestOf (ClientAction.newTodoList n)).path = ["api", "todo-lists"]) ∧
    (∀ i : String,
      (requestOf (ClientAction.deleteTodoList i)).path = ["api", "todo-lists", i]) := by
  refine ⟨?_, rfl, fun n => rfl, fun i => rfl⟩
  intro a
  cases a <;> rfl

/-- C7 witness: the amended route property at the concrete reload action. -/
theorem c7_client_routes_witness :
    (inContract (requestOf ClientAction.reloadData) ||
      todoListsRoute (requestOf ClientAction.reloadData)) = true :=
  c7_client_routes.1 ClientAction.reloadData

/-- C9: in the list-overview create form, a submission invokes the
create-list callback iff the entered name trims non-empty, and passes the
already-trimmed name; the passed name trims to itself and is non-empty, so
this client path can never produce a `createList` call that fails with
ValidationError. -/
theorem c9_onSubmit_trimmed (entered : String) (r : Repo) (now : Instant) :
    (onSubmit entered = none ↔ jsTrim entered = "") ∧
    (∀ n, onSubmit entered = some n →
      n = jsTrim entered ∧ jsTrim n = n ∧ n ≠ "" ∧
      (createList r now n).2 ≠ .error .validation) := by
  constructor
  · by_cases hv : jsTrim entered = "" <;> simp [onSubmit, hv]
  · intro n hn
    rw [onSubmit] at hn
    by_cases hv : jsTrim entered = ""
    · rw [if_pos hv] at hn
      cases hn
    · rw [if_neg hv] at hn
      have hn' := Option.some.inj hn
      subst hn'
      refine ⟨rfl, jsTrim_idem entered, hv, ?_⟩
      rw [createList, jsTrim_idem entered, if_neg hv]
      simp

/-- C9 witness: submitting a padded name passes its trimmed form, which is
stable under trimming, non-empty, and accepted by `createList`. -/
theorem c9_onSubmit_trimmed_witness :
    ("hi" : String) = jsTrim ("  hi  ") ∧ jsTrim ("hi") = "hi" ∧
    ("hi" : String) ≠ "" ∧
    (createList Repo.empty 0 ("hi")).2 ≠ .error .validation :=
  (c9_onSubmit_trimmed ("  hi  ") Repo.empty 0).2 ("hi") (by decide)

/-- C10: in the `ToDoList` component, the initial load establishes — and
every completed operation (add, toggle, delete, relabel) preserves — the
invariant that the `todo-list-{listId}` localStorage entry holds exactly
the JSON serialization of the component's current items array. -/
theorem c10_localStorage_mirror (s : ClientListState) (nm : String)
    (its : List ClientItem) (added updatedItem : ClientItem) (iid : String) :
    cacheConsistent (loadListOp nm its s) ∧
    (cacheConsistent s → cacheConsistent (addItemOp added s)) ∧
    (cacheConsistent s → cacheConsistent (toggleItemOp updatedItem s)) ∧
    (cacheConsistent s → cacheConsistent (deleteItemOp iid s)) ∧
    (cacheConsistent s → cacheConsistent (updateItemLabelOp updatedItem s)) := by
  refine ⟨rfl, ?_, ?_, ?_, ?_⟩
  · intro h
    rw [addItemOp]
    split
    · exact h
    · rfl
  · intro _
    rfl
  · intro _
    rfl
  · intro h
    rw [updateItemLabelOp]
    split
    · exact h
    · rfl

/-- C10 witness: after a load followed by a toggle, the mirrored storage
matches the serialized items. -/
theorem c10_localStorage_mirror_witness :
    cacheConsistent (toggleItemOp ⟨"I1", "Milk", true⟩
      (loadListOp ("Groceries") [⟨"I1", "Milk", false⟩] ⟨"", [], "", none, "", none⟩)) :=
  (c10_localStorage_mirror
      (loadListOp ("Groceries") [⟨"I1", "Milk", false⟩] ⟨"", [], "", none, "", none⟩)
      ("Groceries") [⟨"I1", "Milk", false⟩] ⟨"I1", "Milk", true⟩ ⟨"I1", "Milk", true⟩
      ("x")).2.2.1
    ((c10_localStorage_mirror ⟨"", [], "", none, "", none⟩ ("Groceries")
      [⟨"I1", "Milk", false⟩] ⟨"I1", "Milk", true⟩ ⟨"I1", "Milk", true⟩ ("x")).1)

end FarmStack







